import Mathlib

/-!
Verification of the protoscope-rs repository against its specification.

The definitions below are shallow embeddings of the Rust source:

* `Wire.*`   models `src/protoscope-rs-lib/src/wire_types/` (varint, tag, bool,
  zigzag codecs).  Machine integers `u64`/`i64`/`i32` are modelled as `Nat`
  (with explicit `% 2 ^ 64` where the Rust code truncates) and as `Int`
  constrained to the relevant range.  The output byte iterator of the Rust
  code is modelled by the number of free slots (`cap`); an encoder returns the
  list of bytes it wrote.  The input byte iterator is modelled by a
  `List Nat` of bytes.
* `Lib.*`    models `src/protoscope-rs-lib/src/lib.rs` (the arithmetic zigzag
  pair and the unchecked length-delimited `get_length`).
* `Encoding.*` models `src/encoding/src/wire_types/length_delimited.rs`.
* `RsProtoc.*` models `src/rs-protoc/src/lexer.rs` and `parser.rs`.
-/

/-- Error type of the wire codec, from `src/encoding/src/lib.rs`
(`ProtoscopeRsError`); the copy in `protoscope-rs-lib/src/lib.rs` has the
subset `VarintOverflow, DecodeOverflow, BufferFull, Eof`. -/
inductive PErr where
  | VarintOverflow
  | DecodeOverflow
  | EncodeOverflow
  | BufferFull
  | LengthMismatch
  | UtfDecoding
  | InvalidWireType
  | Eof
deriving DecidableEq, Repr

namespace Wire

/-- Loop body of `encode_varint_impl` (`wire_types/varint.rs`, lines 7-26).
`fuel` is the remaining trip count of the unrolled `for _ in 0..10` loop,
`value` is `value_copy : u64` (invariant `value < 2 ^ 64`), `cap` the number
of slots the output iterator still has.  Each iteration first takes an output
slot (`BufferFull` when none is left), then either writes the final byte
`value & 0x7f` when `value & !0x7f == 0`, or writes `(value & 0x7f) | 0x80`
and continues with `value >> 7`.  When the loop bound is exhausted the Rust
code returns `Ok(bytes_encoded)`; the written bytes are returned as a list
(its length is the returned byte count). -/
def encodeVarintLoop : Nat → Nat → Nat → Except PErr (List Nat)
  | 0, _, _ => .ok []
  | _ + 1, _, 0 => .error .BufferFull
  | fuel + 1, value, cap + 1 =>
    if value &&& 0xffffffffffffff80 = 0 then
      .ok [value &&& 0x7f]
    else
      match encodeVarintLoop fuel (value >>> 7) cap with
      | .ok rest => .ok (((value &&& 0x7f) ||| 0x80) :: rest)
      | .error e => .error e

/-- Model of `encode_varint_impl` (`wire_types/varint.rs`): encode `value`
into an output iterator with `cap` free slots; `MAX_NUMBER_OF_BYTES = 10`. -/
def encode_varint_impl (value cap : Nat) : Except PErr (List Nat) :=
  encodeVarintLoop 10 value cap

/-- Loop body of `decode_varint_impl` (`wire_types/varint.rs`, lines 56-80).
Accumulates `decoded_value | ((byte & 0x7f) << (7 * byte_idx))` (the shift
truncates in `u64`, hence the `% 2 ^ 64`); stops on a byte with the
continuation bit clear; fails with `VarintOverflow` when the tenth byte
(`byte_idx == 9`) still has the continuation bit; an exhausted iterator
breaks out of the loop and the partial value is returned. -/
def decodeVarintLoop : List Nat → Nat → Nat → Except PErr Nat
  | [], _, acc => .ok acc
  | b :: rest, idx, acc =>
    let acc2 := acc ||| ((b &&& 0x7f) <<< (7 * idx)) % 2 ^ 64
    if b &&& 0x80 = 0 then .ok acc2
    else if idx = 9 then .error .VarintOverflow
    else decodeVarintLoop rest (idx + 1) acc2

/-- Model of `decode_varint_impl` (`wire_types/varint.rs`): an empty input
iterator fails with `Eof` (the initial `peek`), otherwise the loop runs. -/
def decode_varint_impl (bs : List Nat) : Except PErr Nat :=
  match bs with
  | [] => .error .Eof
  | _ :: _ => decodeVarintLoop bs 0 0

/-- Arithmetic form of the byte list that `encodeVarintLoop` produces:
7-bit groups least-significant first, continuation bit on all but the last. -/
def encList : Nat → Nat → List Nat
  | 0, _ => []
  | fuel + 1, v => if v < 128 then [v] else (v % 128 + 128) :: encList fuel (v / 128)

/-- The mask `!0x7f : u64` selects exactly bits 7..63 of a `u64` value. -/
theorem and_hi_mask_eq {v : Nat} (hv : v < 2 ^ 64) :
    v &&& 0xffffffffffffff80 = (v >>> 7) <<< 7 := by
  have hmask : (0xffffffffffffff80 : Nat) = (2 ^ 57 - 1) <<< 7 := by
    norm_num [Nat.shiftLeft_eq]
  apply Nat.eq_of_testBit_eq
  intro i
  rw [hmask]
  simp only [Nat.testBit_and, Nat.testBit_shiftLeft, Nat.testBit_shiftRight,
    Nat.testBit_two_pow_sub_one, ge_iff_le]
  by_cases h7 : 7 ≤ i
  · by_cases h64 : i < 64
    · have h1 : i - 7 < 57 := by omega
      have h2 : 7 + (i - 7) = i := by omega
      simp [h7, h1, h2]
    · have hbit : v.testBit i = false := by
        apply Nat.testBit_lt_two_pow
        calc v < 2 ^ 64 := hv
          _ ≤ 2 ^ i := Nat.pow_le_pow_right (by norm_num) (by omega)
      have h1 : ¬ (i - 7 < 57) := by omega
      have h2 : 7 + (i - 7) = i := by omega
      simp [h7, h1, h2, hbit]
  · simp [h7]

/-- For a `u64` value, `value & !0x7f == 0` iff `value < 128`. -/
theorem and_hi_mask_eq_zero_iff {v : Nat} (hv : v < 2 ^ 64) :
    v &&& 0xffffffffffffff80 = 0 ↔ v < 128 := by
  rw [and_hi_mask_eq hv, Nat.shiftLeft_eq, Nat.shiftRight_eq_div_pow]
  have h128 : (2 : Nat) ^ 7 = 128 := by norm_num
  rw [h128]
  omega

/-- The mask `0x7f` takes the low 7 bits: `v &&& 0x7f = v % 128`. -/
theorem and_low7 (v : Nat) : v &&& 0x7f = v % 128 := by
  have h := Nat.and_pow_two_sub_one_eq_mod v 7
  norm_num at h
  exact h

/-- Setting bit 7 on a 7-bit value is addition of 128. -/
theorem or_bit7 (a : Nat) (h : a < 128) : a ||| 0x80 = a + 128 := by
  have h2 := Nat.mul_add_lt_is_or (i := 7) (b := a) (by norm_num [h]) 1
  have h3 : (2 : Nat) ^ 7 * 1 = 128 := by norm_num
  rw [h3] at h2
  rw [Nat.lor_comm]
  omega

/-- A byte below 128 has the continuation bit clear. -/
theorem and_bit7_eq_zero {b : Nat} (h : b < 128) : b &&& 0x80 = 0 := by
  apply Nat.eq_of_testBit_eq
  intro i
  simp only [Nat.testBit_and, Nat.zero_testBit]
  have h80 : (0x80 : Nat) = 2 ^ 7 := by norm_num
  rw [h80, Nat.testBit_two_pow]
  by_cases h7 : 7 = i
  · subst h7
    have : b.testBit 7 = false := Nat.testBit_lt_two_pow (by norm_num [h])
    simp [this]
  · simp [h7]

/-- A byte in `[128, 256)` has the continuation bit set. -/
theorem and_bit7_ne_zero {b : Nat} (h1 : 128 ≤ b) (h2 : b < 256) :
    b &&& 0x80 ≠ 0 := by
  intro hcontra
  have hbit : b.testBit 7 = true := by
    rw [Nat.testBit_to_div_mod]
    norm_num
    omega
  have hbit128 : Nat.testBit 0x80 7 = true := by decide
  have hand : (b &&& 0x80).testBit 7 = true := by
    rw [Nat.testBit_and, hbit, hbit128]
    rfl
  rw [hcontra] at hand
  simp at hand

/-- On inputs below `2 ^ (7 * fuel)` with enough output capacity, the encode
loop succeeds and produces exactly the arithmetic byte list. -/
theorem encodeVarintLoop_eq_encList :
    ∀ fuel v cap : Nat, v < 2 ^ (7 * fuel) → fuel ≤ cap → v < 2 ^ 64 →
      encodeVarintLoop fuel v cap = .ok (encList fuel v) := by
  intro fuel
  induction fuel with
  | zero =>
    intro v cap hv _ _
    have hv0 : v = 0 := by simpa using hv
    subst hv0
    rfl
  | succ n ih =>
    intro v cap hv hcap hv64
    obtain ⟨c, rfl⟩ : ∃ c, cap = c + 1 := ⟨cap - 1, by omega⟩
    by_cases hsmall : v < 128
    · simp only [encodeVarintLoop, encList,
        (and_hi_mask_eq_zero_iff hv64).mpr hsmall, if_pos hsmall, if_true]
      rw [and_low7, Nat.mod_eq_of_lt hsmall]
    · have hcond : ¬ (v &&& 0xffffffffffffff80 = 0) := by
        rw [and_hi_mask_eq_zero_iff hv64]; omega
      have hdiv : v >>> 7 = v / 128 := by
        rw [Nat.shiftRight_eq_div_pow]
      have hrec : encodeVarintLoop n (v >>> 7) c = .ok (encList n (v / 128)) := by
        rw [hdiv]
        apply ih
        · have : 2 ^ (7 * (n + 1)) = 2 ^ (7 * n) * 128 := by
            rw [show 7 * (n + 1) = 7 * n + 7 by ring, pow_add]; norm_num
          rw [this] at hv
          omega
        · omega
        · omega
      simp only [encodeVarintLoop, encList, if_neg hcond, if_neg hsmall, hrec]
      rw [and_low7, or_bit7 _ (Nat.mod_lt _ (by norm_num))]

/-- The arithmetic byte list has at most `fuel` bytes. -/
theorem encList_length_le : ∀ fuel v : Nat, v < 2 ^ (7 * fuel) →
    (encList fuel v).length ≤ fuel := by
  intro fuel
  induction fuel with
  | zero => intro v hv; interval_cases v; simp [encList]
  | succ n ih =>
    intro v hv
    by_cases hsmall : v < 128
    · simp [encList, hsmall]
    · have : 2 ^ (7 * (n + 1)) = 2 ^ (7 * n) * 128 := by
        rw [show 7 * (n + 1) = 7 * n + 7 by ring, pow_add]; norm_num
      rw [this] at hv
      simp only [encList, if_neg hsmall, List.length_cons]
      have := ih (v / 128) (by omega)
      omega

/-- The arithmetic byte list is nonempty when `fuel` is positive. -/
theorem encList_length_pos : ∀ fuel v : Nat, 1 ≤ fuel →
    1 ≤ (encList fuel v).length := by
  intro fuel v h
  obtain ⟨n, rfl⟩ : ∃ n, fuel = n + 1 := ⟨fuel - 1, by omega⟩
  by_cases hsmall : v < 128 <;> simp [encList, hsmall]

/-- Every byte of the arithmetic byte list is below 256. -/
theorem encList_bytes_lt : ∀ fuel v : Nat, ∀ b ∈ encList fuel v, b < 256 := by
  intro fuel
  induction fuel with
  | zero => intro v b hb; simp [encList] at hb
  | succ n ih =>
    intro v b hb
    by_cases hsmall : v < 128 <;> simp [encList, hsmall] at hb
    · omega
    · rcases hb with hb | hb
      · have := Nat.mod_lt v (y := 128) (by norm_num); omega
      · exact ih _ _ hb

/-- Decoding the arithmetic byte list of `v` starting at byte index `idx`
with accumulator `acc` yields `acc + v * 2 ^ (7 * idx)`, provided the shifted
value fits in a `u64` and the accumulator only occupies the bits below the
shift position. -/
theorem decodeVarintLoop_encList :
    ∀ fuel v idx acc : Nat, 0 < fuel → v < 2 ^ (7 * fuel) →
      v * 2 ^ (7 * idx) < 2 ^ 64 → acc < 2 ^ (7 * idx) →
      decodeVarintLoop (encList fuel v) idx acc = .ok (acc + v * 2 ^ (7 * idx)) := by
  intro fuel
  induction fuel with
  | zero => intro v idx acc h; omega
  | succ n ih =>
    intro v idx acc _ hv hshift hacc
    by_cases hsmall : v < 128
    · have hlist : encList (n + 1) v = [v] := by simp [encList, hsmall]
      have hpayload : v &&& 0x7f = v := by rw [and_low7, Nat.mod_eq_of_lt hsmall]
      have hnotrunc : v <<< (7 * idx) % 2 ^ 64 = v * 2 ^ (7 * idx) := by
        rw [Nat.shiftLeft_eq, Nat.mod_eq_of_lt hshift]
      have hor : acc ||| v * 2 ^ (7 * idx) = acc + v * 2 ^ (7 * idx) := by
        rw [Nat.lor_comm, Nat.mul_comm v, ← Nat.mul_add_lt_is_or hacc]
        ring
      rw [hlist]
      show decodeVarintLoop [v] idx acc = _
      simp only [decodeVarintLoop]
      rw [if_pos (and_bit7_eq_zero hsmall), hpayload, hnotrunc, hor]
    · have hb256 : v % 128 + 128 < 256 := by
        have := Nat.mod_lt v (y := 128) (by norm_num); omega
      have hlist : encList (n + 1) v = (v % 128 + 128) :: encList n (v / 128) := by
        simp [encList, hsmall]
      have hpayload : (v % 128 + 128) &&& 0x7f = v % 128 := by
        rw [and_low7]; omega
      have hcont := and_bit7_ne_zero (b := v % 128 + 128) (by omega) hb256
      have hidx9 : idx ≠ 9 := by
        intro hcontra
        subst hcontra
        have : (128 : Nat) * 2 ^ (7 * 9) ≤ v * 2 ^ (7 * 9) :=
          Nat.mul_le_mul_right _ (by omega)
        norm_num at this hshift
        omega
      have hnotrunc : (v % 128) <<< (7 * idx) % 2 ^ 64 = v % 128 * 2 ^ (7 * idx) := by
        rw [Nat.shiftLeft_eq, Nat.mod_eq_of_lt]
        calc v % 128 * 2 ^ (7 * idx) ≤ v * 2 ^ (7 * idx) :=
              Nat.mul_le_mul_right _ (Nat.mod_le _ _)
          _ < 2 ^ 64 := hshift
      have hor : acc ||| v % 128 * 2 ^ (7 * idx) = acc + v % 128 * 2 ^ (7 * idx) := by
        rw [Nat.lor_comm, Nat.mul_comm (v % 128), ← Nat.mul_add_lt_is_or hacc]
        ring
      have hPsucc : 2 ^ (7 * (idx + 1)) = 2 ^ (7 * idx) * 128 := by
        rw [show 7 * (idx + 1) = 7 * idx + 7 by ring, pow_add]; norm_num
      have hvsucc : 2 ^ (7 * (n + 1)) = 2 ^ (7 * n) * 128 := by
        rw [show 7 * (n + 1) = 7 * n + 7 by ring, pow_add]; norm_num
      have hfuel : 0 < n := by
        rcases Nat.eq_zero_or_pos n with h0 | h0
        · subst h0
          norm_num at hv
          omega
        · exact h0
      have hrec := ih (v / 128) (idx + 1) (acc + v % 128 * 2 ^ (7 * idx))
        hfuel
        (by rw [hvsucc] at hv; omega)
        (by
          rw [hPsucc]
          calc v / 128 * (2 ^ (7 * idx) * 128)
              = v / 128 * 128 * 2 ^ (7 * idx) := by ring
            _ ≤ v * 2 ^ (7 * idx) := Nat.mul_le_mul_right _ (by omega)
            _ < 2 ^ 64 := hshift)
        (by
          rw [hPsucc]
          have hm : v % 128 < 128 := Nat.mod_lt _ (by norm_num)
          calc acc + v % 128 * 2 ^ (7 * idx)
              < 2 ^ (7 * idx) + 127 * 2 ^ (7 * idx) := by
                have : v % 128 * 2 ^ (7 * idx) ≤ 127 * 2 ^ (7 * idx) :=
                  Nat.mul_le_mul_right _ (by omega)
                omega
            _ = 2 ^ (7 * idx) * 128 := by ring)
      rw [hlist]
      show decodeVarintLoop ((v % 128 + 128) :: encList n (v / 128)) idx acc = _
      simp only [decodeVarintLoop]
      rw [if_neg hcont, if_neg hidx9, hpayload, hnotrunc, hor, hrec]
      congr 1
      have hdm : 128 * (v / 128) + v % 128 = v := Nat.div_add_mod v 128
      rw [hPsucc]
      nlinarith [hdm]

end Wire

/-- C2: for every `u64` value `v`, encoding `v` with `encode_varint_impl`
into a buffer of at least 10 bytes succeeds with some byte list `bs` of
length `k`, `1 ≤ k ≤ 10`, and `decode_varint_impl` on exactly those bytes
returns `v`. -/
theorem c2_varint_roundtrip (v cap : Nat) (hv : v < 2 ^ 64) (hcap : 10 ≤ cap) :
    ∃ bs : List Nat, Wire.encode_varint_impl v cap = .ok bs ∧
      1 ≤ bs.length ∧ bs.length ≤ 10 ∧ Wire.decode_varint_impl bs = .ok v := by
  have hv70 : v < 2 ^ (7 * 10) := by
    calc v < 2 ^ 64 := hv
      _ ≤ 2 ^ (7 * 10) := by norm_num
  refine ⟨Wire.encList 10 v, ?_, ?_, ?_, ?_⟩
  · exact Wire.encodeVarintLoop_eq_encList 10 v cap hv70 hcap hv
  · exact Wire.encList_length_pos 10 v (by norm_num)
  · exact Wire.encList_length_le 10 v hv70
  · have hdec := Wire.decodeVarintLoop_encList 10 v 0 0 (by norm_num) hv70
      (by simpa using hv) (by norm_num)
    obtain ⟨b, rest, hcons⟩ : ∃ b rest, Wire.encList 10 v = b :: rest := by
      rcases hbs : Wire.encList 10 v with _ | ⟨b, rest⟩
      · have := Wire.encList_length_pos 10 v (by norm_num)
        rw [hbs] at this
        simp at this
      · exact ⟨b, rest, rfl⟩
    rw [hcons]
    show Wire.decodeVarintLoop (b :: rest) 0 0 = .ok v
    rw [← hcons, hdec]
    norm_num

/-- Witness for C2 at `v = 300` with a 10-slot buffer. -/
theorem c2_varint_roundtrip_witness :
    (300 : Nat) < 2 ^ 64 ∧ (10 : Nat) ≤ 10 ∧
      ∃ bs : List Nat, Wire.encode_varint_impl 300 10 = .ok bs ∧
        1 ≤ bs.length ∧ bs.length ≤ 10 ∧ Wire.decode_varint_impl bs = .ok 300 :=
  ⟨by norm_num, by norm_num, c2_varint_roundtrip 300 10 (by norm_num) (by norm_num)⟩

/-- Cast of an `i64` (or any in-range integer) to `u64`: reduce modulo `2 ^ 64`
and reinterpret as unsigned. -/
def toU64 (x : Int) : Nat := (x % (2 ^ 64 : Int)).toNat

/-- Cast of a `u64` bit pattern to `i64` (two-complement reinterpretation). -/
def toI64 (m : Nat) : Int :=
  if m < 2 ^ 63 then (m : Int) else (m : Int) - 2 ^ 64

/-- Cast of a `usize` value to `i32`: keep the low 32 bits, reinterpret
signed (`as i32` in Rust). -/
def toI32 (m : Nat) : Int :=
  if m % 2 ^ 32 < 2 ^ 31 then (m % 2 ^ 32 : Int) else (m % 2 ^ 32 : Int) - 2 ^ 32

/-- Wrapping reduction of an integer into the `i64` range, modelling the
release-mode (two-complement wrapping) result of an overflowing `i64`
operation. -/
def wrapI64 (x : Int) : Int := (x + 2 ^ 63) % 2 ^ 64 - 2 ^ 63

namespace Wire

/-- The four wire types (`wire_types/mod.rs`, `WireTypeEnum`). -/
inductive WireTypeEnum where
  | Varint
  | I64
  | Len
  | I32
deriving DecidableEq, Repr

/-- Model of `impl From<WireTypeEnum> for u64` (`wire_types/mod.rs` 21-30). -/
def wireTypeCode : WireTypeEnum → Nat
  | .Varint => 0
  | .I64 => 1
  | .Len => 2
  | .I32 => 5

/-- Model of `impl TryFrom<u64> for WireTypeEnum` (`wire_types/mod.rs` 32-43). -/
def wireTypeTryFrom (value : Nat) : Except PErr WireTypeEnum :=
  if value = 0 then .ok .Varint
  else if value = 1 then .ok .I64
  else if value = 2 then .ok .Len
  else if value = 5 then .ok .I32
  else .error .InvalidWireType

/-- Model of `Tag` (`wire_types/mod.rs` 15-19). -/
structure Tag where
  field_number : Nat
  wire_type : WireTypeEnum
deriving DecidableEq, Repr

/-- Model of `encode_tag` (`wire_types/mod.rs` 65-68).  The source computes
`(tag.field_number << 3) & u64::from(tag.wire_type)` — note the bitwise AND;
the `u64` left shift truncates, hence the `% 2 ^ 64`. -/
def encode_tag (tag : Tag) (cap : Nat) : Except PErr (List Nat) :=
  let tag_repr : Nat := tag.field_number <<< 3 % 2 ^ 64 &&& wireTypeCode tag.wire_type
  encode_varint_impl tag_repr cap

/-- Model of `decode_tag` (`wire_types/mod.rs` 70-78).  `u64::decode` is
`decode_varint_impl` followed by a `NumCast` to `u64`, which always
succeeds. -/
def decode_tag (bs : List Nat) : Except PErr Tag :=
  match decode_varint_impl bs with
  | .error e => .error e
  | .ok tag_u64 =>
    match wireTypeTryFrom (tag_u64 &&& 0b111) with
    | .error e => .error e
    | .ok wire_type => .ok ⟨tag_u64 >>> 3, wire_type⟩

/-- Model of `zigzag_encode` (`wire_types/varint.rs` 123-127):
`((input >> 63) as u64) ^ ((input << 1) as u64)`.  Per the source comment the
arithmetic right shift by 63 "just propagates the sign-bit from the most
significant bit to all the other bits", i.e. it is `-1` for negative inputs
and `0` otherwise; the `i64` left shift truncates, which the cast to `u64`
makes a reduction modulo `2 ^ 64`. -/
def zigzag_encode (input : Int) : Nat :=
  toU64 (if input < 0 then -1 else 0) ^^^ toU64 (input * 2)

/-- Bitwise XOR of two `i64` values, modelled on their `u64` bit patterns. -/
def i64Xor (a b : Int) : Int := toI64 (toU64 a ^^^ toU64 b)

/-- Model of `zigzag_decode` (`wire_types/varint.rs` 129-133):
`(input >> 1) as i64 ^ -((input & 1) as i64)` on a `u64` input. -/
def zigzag_decode (input : Nat) : Int :=
  i64Xor (toI64 (input >>> 1)) (- toI64 (input &&& 1))

/-- Model of `DecodeVarint for i32` (macro instance, `wire_types/varint.rs`
149-168): raw varint decode, `zigzag_decode`, then `NumCast` to `i32`
(`DecodeOverflow` when the value does not fit). -/
def decode_i32 (bs : List Nat) : Except PErr Int :=
  match decode_varint_impl bs with
  | .error e => .error e
  | .ok u =>
    let i := zigzag_decode u
    if -(2 ^ 31) ≤ i ∧ i < 2 ^ 31 then .ok i else .error .DecodeOverflow

/-- Model of `EncodeVarint for bool` (`wire_types/varint.rs` 46-54): `true`
encodes via `1i32.encode`, `false` via `0i32.encode`; the `i32` instance
applies `zigzag_encode` before the raw varint encode. -/
def encode_bool (b : Bool) (cap : Nat) : Except PErr (List Nat) :=
  encode_varint_impl (zigzag_encode (if b then 1 else 0)) cap

/-- Model of `DecodeVarint for bool` (`wire_types/varint.rs` 108-121):
decode as `i32`, accept exactly 0 and 1, otherwise `DecodeOverflow`. -/
def decode_bool (bs : List Nat) : Except PErr Bool :=
  match decode_i32 bs with
  | .error e => .error e
  | .ok i =>
    if i = 0 then .ok false
    else if i = 1 then .ok true
    else .error .DecodeOverflow

end Wire

namespace Lib

/-- Model of `zigzag_encode` in `protoscope-rs-lib/src/lib.rs` 109-115 under
checked (debug-build) arithmetic: `input.abs()` overflows at `i64::MIN` and
`* 2` overflows outside the `i64` range; an overflow is `none`. -/
def zigzag_encode_checked (input : Int) : Option Nat :=
  if input < 0 then
    if input = -(2 ^ 63) then none
    else if 2 ^ 63 - 1 < -input * 2 then none
    else some (toU64 (-input * 2 - 1))
  else
    if 2 ^ 63 - 1 < input * 2 then none
    else some (toU64 (input * 2))

/-- Model of `zigzag_encode` in `protoscope-rs-lib/src/lib.rs` 109-115 under
wrapping (release-build) arithmetic: `abs`, `* 2` and `- 1` all wrap in
`i64`, and the final `as u64` reinterprets the bits. -/
def zigzag_encode_wrapping (input : Int) : Nat :=
  if input < 0 then
    toU64 (wrapI64 (wrapI64 (wrapI64 (-input) * 2) - 1))
  else
    toU64 (wrapI64 (input * 2))

/-- Model of `zigzag_decode` in `protoscope-rs-lib/src/lib.rs` 117-123 under
wrapping arithmetic: for odd input, `input + 1` wraps in `u64` (at
`u64::MAX` it wraps to 0). -/
def zigzag_decode_wrapping (input : Nat) : Int :=
  if input % 2 = 0 then toI64 (input / 2)
  else - toI64 ((input + 1) % 2 ^ 64 / 2)

/-- Model of `zigzag_decode` in `protoscope-rs-lib/src/lib.rs` 117-123 under
checked arithmetic: `input + 1` overflows `u64` at `u64::MAX`. -/
def zigzag_decode_checked (input : Nat) : Option Int :=
  if input % 2 = 0 then some (toI64 (input / 2))
  else if input + 1 < 2 ^ 64 then some (- toI64 ((input + 1) / 2))
  else none

/-- Model of `get_length` of `impl EncodeLengthDelimited for String` in
`protoscope-rs-lib/src/wire_types/length_delimited.rs` 43-53: the body is
`Ok(self.len() as i32)` with no overflow check.  The string is abstracted by
its byte length, the only datum the source uses. -/
def get_length_string (len : Nat) : Except PErr Int := .ok (toI32 len)

end Lib

namespace Encoding

/-- Model of `get_length` of the `String` and `Vec<u8>` instances of
`EncodeLengthDelimited` in `src/encoding/src/wire_types/length_delimited.rs`
45-59 and 85-98 (both bodies are identical): lengths above `i32::MAX` fail
with `EncodeOverflow`.  The payload is abstracted by its byte length. -/
def get_length (len : Nat) : Except PErr Int :=
  if len ≤ 2147483647 then .ok (toI32 len) else .error .EncodeOverflow

end Encoding

/-- C1 (code bug): `encode_tag` combines the shifted field number and the
wire-type code with bitwise AND instead of OR, so the tag `(field_number 1,
Varint)` encodes to the single byte `0x00` (the varint of `(1 << 3) & 0 = 0`)
rather than `0x08`, and decoding it yields field number 0: the round trip of
the claim fails. -/
theorem c1_encode_tag_and_bug :
    Wire.encode_tag ⟨1, .Varint⟩ 10 = .ok [0x00] ∧
      Wire.decode_tag [0x00] = .ok ⟨0, .Varint⟩ ∧
      Wire.encode_varint_impl ((1 <<< 3) % 2 ^ 64 ||| Wire.wireTypeCode .Varint) 10 =
        .ok [0x08] :=
  ⟨rfl, rfl, rfl⟩

/-- C3 (code bug): the boolean codec routes through the `i32` varint
instance, which applies zigzag: `true` encodes as the varint 2 (byte `0x02`),
not 1; the varint value 1 (which the claim says is the encoding of `true`)
is rejected with `DecodeOverflow`, while the varint value 2 decodes to
`true`. -/
theorem c3_bool_codec_zigzag :
    Wire.encode_bool true 10 = .ok [0x02] ∧
      Wire.encode_bool false 10 = .ok [0x00] ∧
      Wire.decode_bool [0x01] = .error .DecodeOverflow ∧
      Wire.decode_bool [0x02] = .ok true :=
  ⟨rfl, rfl, rfl, rfl⟩

/-- C9 counterexample: the checked arithmetic `zigzag_encode` of `lib.rs`
overflows at `i64::MIN` (so it is not total), and the two `zigzag_decode`
functions disagree at `u64::MAX`, where the arithmetic one wraps
`input + 1` to 0 and returns 0 while the bitwise one returns `i64::MIN`. -/
theorem c9_zigzag_counterexample :
    Lib.zigzag_encode_checked (-(2 ^ 63)) = none ∧
      Lib.zigzag_decode_wrapping (2 ^ 64 - 1) = 0 ∧
      Wire.zigzag_decode (2 ^ 64 - 1) = -(2 ^ 63) ∧
      Lib.zigzag_decode_wrapping (2 ^ 64 - 1) ≠ Wire.zigzag_decode (2 ^ 64 - 1) := by
  refine ⟨rfl, by decide, by decide, by decide⟩

/-- Reduction modulo `2 ^ 64` commutes with the wrapping `i64` reduction. -/
theorem wrapI64_emod (x : Int) : wrapI64 x % (2 ^ 64 : Int) = x % 2 ^ 64 := by
  unfold wrapI64
  omega

/-- Two integers congruent modulo `2 ^ 64` have the same `u64` cast. -/
theorem toU64_congr {x y : Int} (h : x % (2 ^ 64 : Int) = y % 2 ^ 64) :
    toU64 x = toU64 y := by
  unfold toU64
  rw [h]

/-- The `u64` cast ignores a wrapping `i64` reduction. -/
theorem toU64_wrapI64 (x : Int) : toU64 (wrapI64 x) = toU64 x :=
  toU64_congr (wrapI64_emod x)

/-- The `u64` cast of an in-range nonnegative integer is the identity. -/
theorem toU64_of_nonneg {x : Int} (h0 : 0 ≤ x) (h1 : x < 2 ^ 64) :
    (toU64 x : Int) = x := by
  unfold toU64
  omega

/-- The `u64` cast of an in-range negative integer adds `2 ^ 64`. -/
theorem toU64_of_neg {x : Int} (h0 : -(2 ^ 64) ≤ x) (h1 : x < 0) :
    (toU64 x : Int) = x + 2 ^ 64 := by
  unfold toU64
  omega

/-- The `u64` cast of a `u64`-range natural number is the identity. -/
theorem toU64_natCast {m : Nat} (h : m < 2 ^ 64) : toU64 (m : Int) = m := by
  unfold toU64
  omega

/-- XOR with the all-ones `u64` pattern is complement (subtraction from
`2 ^ 64 - 1`). -/
theorem xor_allones {m : Nat} (hm : m < 2 ^ 64) :
    (2 ^ 64 - 1) ^^^ m = 2 ^ 64 - 1 - m := by
  have h1 : 2 ^ 64 - 1 - m = 2 ^ 64 - (m + 1) := by omega
  rw [h1]
  apply Nat.eq_of_testBit_eq
  intro i
  rw [Nat.testBit_xor, Nat.testBit_two_pow_sub_one, Nat.testBit_two_pow_sub_succ hm]
  by_cases h64 : i < 64
  · simp [h64]
  · have hbit : m.testBit i = false := by
      apply Nat.testBit_lt_two_pow
      calc m < 2 ^ 64 := hm
        _ ≤ 2 ^ i := Nat.pow_le_pow_right (by norm_num) (by omega)
    simp [h64, hbit]

/-- The `i64` reinterpretation of a small `u64` bit pattern. -/
theorem toI64_small {m : Nat} (h : m < 2 ^ 63) : toI64 m = (m : Int) := by
  unfold toI64
  rw [if_pos h]

/-- The `i64` reinterpretation of a large `u64` bit pattern subtracts
`2 ^ 64`. -/
theorem toI64_large {m : Nat} (h : 2 ^ 63 ≤ m) : toI64 m = (m : Int) - 2 ^ 64 := by
  unfold toI64
  rw [if_neg (by omega)]

/-- C9 amended: under two-complement wrapping semantics the arithmetic
`zigzag_encode` of `lib.rs` agrees with the bitwise one of `varint.rs` on
every `i64` input, and the two `zigzag_decode` functions agree on every `u64`
input except `u64::MAX`; but the checked (overflow-trapping) arithmetic
encode is defined exactly on `-(2 ^ 62) < n < 2 ^ 62` — in particular it
overflows at `i64::MIN` and for every `n > i64::MAX / 2`. -/
theorem c9_zigzag_amended :
    (∀ n : Int, -(2 ^ 63) ≤ n → n < 2 ^ 63 →
        Lib.zigzag_encode_wrapping n = Wire.zigzag_encode n) ∧
      (∀ u : Nat, u < 2 ^ 64 - 1 →
        Lib.zigzag_decode_wrapping u = Wire.zigzag_decode u) ∧
      (∀ n : Int, (Lib.zigzag_encode_checked n).isSome ↔ -(2 ^ 62) < n ∧ n < 2 ^ 62) := by
  refine ⟨?_, ?_, ?_⟩
  · intro n h1 h2
    unfold Lib.zigzag_encode_wrapping Wire.zigzag_encode
    by_cases hneg : n < 0
    · rw [if_pos hneg, if_pos hneg]
      have hL : toU64 (wrapI64 (wrapI64 (wrapI64 (-n) * 2) - 1)) = toU64 (-n * 2 - 1) := by
        rw [toU64_wrapI64]
        apply toU64_congr
        have e1 := wrapI64_emod (-n)
        have e2 := wrapI64_emod (wrapI64 (-n) * 2)
        omega
      rw [hL]
      have hones : toU64 (-1) = 2 ^ 64 - 1 := by decide
      rw [hones, xor_allones (by unfold toU64; omega)]
      have hA : (toU64 (-n * 2 - 1) : Int) = -n * 2 - 1 :=
        toU64_of_nonneg (by omega) (by omega)
      have hB : (toU64 (n * 2) : Int) = n * 2 + 2 ^ 64 :=
        toU64_of_neg (by omega) (by omega)
      omega
    · rw [if_neg hneg, if_neg hneg]
      rw [toU64_wrapI64]
      show _ = toU64 0 ^^^ toU64 (n * 2)
      have h0 : toU64 0 = 0 := rfl
      rw [h0, Nat.zero_xor]
  · intro u hu
    unfold Lib.zigzag_decode_wrapping Wire.zigzag_decode Wire.i64Xor
    have hdiv : u >>> 1 = u / 2 := by
      rw [Nat.shiftRight_eq_div_pow]
    have hd63 : u / 2 < 2 ^ 63 := by omega
    by_cases hpar : u % 2 = 0
    · rw [if_pos hpar]
      have h1 : u &&& 1 = 0 := by rw [Nat.and_one_is_mod, hpar]
      rw [h1, hdiv]
      have ht0 : toI64 0 = 0 := rfl
      rw [ht0, neg_zero]
      have hu0 : toU64 0 = 0 := rfl
      rw [hu0, Nat.xor_zero, toI64_small hd63, toU64_natCast (by omega),
        toI64_small hd63]
    · rw [if_neg hpar]
      have hodd : u % 2 = 1 := by omega
      have h1 : u &&& 1 = 1 := by rw [Nat.and_one_is_mod, hodd]
      rw [h1, hdiv]
      have ht1 : toI64 1 = 1 := rfl
      rw [ht1]
      have hones : toU64 (-1) = 2 ^ 64 - 1 := by decide
      rw [hones, toI64_small hd63, toU64_natCast (by omega)]
      rw [Nat.xor_comm, xor_allones (by omega)]
      have hmod : (u + 1) % 2 ^ 64 = u + 1 := Nat.mod_eq_of_lt (by omega)
      rw [hmod]
      have hd1 : (u + 1) / 2 = u / 2 + 1 := by omega
      rw [hd1]
      have hsucc63 : u / 2 + 1 < 2 ^ 63 := by omega
      rw [toI64_small hsucc63, toI64_large (by omega)]
      have : ((2 ^ 64 - 1 - u / 2 : Nat) : Int) = 2 ^ 64 - 1 - (u / 2 : Nat) := by
        omega
      rw [this]
      omega
  · intro n
    unfold Lib.zigzag_encode_checked
    by_cases hneg : n < 0
    · rw [if_pos hneg]
      by_cases hmin : n = -(2 ^ 63)
      · rw [if_pos hmin]
        simp
        omega
      · rw [if_neg hmin]
        by_cases hov : 2 ^ 63 - 1 < -n * 2
        · rw [if_pos hov]
          simp
          omega
        · rw [if_neg hov]
          simp
          omega
    · rw [if_neg hneg]
      by_cases hov : 2 ^ 63 - 1 < n * 2
      · rw [if_pos hov]
        simp
        omega
      · rw [if_neg hov]
        simp
        omega

/-- Witness for C9 amended at `n = -5`, `u = 9` and `n = 3`. -/
theorem c9_zigzag_amended_witness :
    Lib.zigzag_encode_wrapping (-5) = Wire.zigzag_encode (-5) ∧
      Lib.zigzag_decode_wrapping 9 = Wire.zigzag_decode 9 ∧
      ((Lib.zigzag_encode_checked 3).isSome ↔ -(2 ^ 62) < (3 : Int) ∧ (3 : Int) < 2 ^ 62) :=
  ⟨c9_zigzag_amended.1 (-5) (by norm_num) (by norm_num),
   c9_zigzag_amended.2.1 9 (by norm_num),
   c9_zigzag_amended.2.2 3⟩

/-- C8 counterexample: for a payload of `2 ^ 31` bytes (one more than
`i32::MAX`), the `protoscope-rs-lib` String implementation does not fail
with `EncodeOverflow`; its `get_length` returns `Ok` with the wrapped
negative length `-2 ^ 31`.  (The `encoding` crate version does fail.) -/
theorem c8_lib_get_length_no_check :
    Lib.get_length_string (2 ^ 31) = .ok (-(2 ^ 31)) ∧
      Lib.get_length_string (2 ^ 31) ≠ .error .EncodeOverflow ∧
      Encoding.get_length (2 ^ 31) = .error .EncodeOverflow := by
  refine ⟨?_, ?_, ?_⟩
  · show Except.ok (toI32 (2 ^ 31)) = _
    norm_num [toI32]
  · simp [Lib.get_length_string]
  · norm_num [Encoding.get_length]

/-- C8 amended: the `encoding` crate `get_length` (String and byte vectors)
succeeds with the exact length for payloads of at most `i32::MAX` bytes and
fails with `EncodeOverflow` above; the `protoscope-rs-lib` String
`get_length` never fails and returns the length cast to `i32` with wrap. -/
theorem c8_get_length_amended (n : Nat) :
    Encoding.get_length n =
        (if n ≤ 2147483647 then .ok (n : Int) else .error .EncodeOverflow) ∧
      Lib.get_length_string n = .ok (toI32 n) := by
  constructor
  · unfold Encoding.get_length
    by_cases h : n ≤ 2147483647
    · rw [if_pos h, if_pos h]
      unfold toI32
      rw [if_pos (by omega)]
      congr 1
      omega
    · rw [if_neg h, if_neg h]
  · rfl

namespace RsProtoc

/-- Model of `RsProtocError` (`rs-protoc/src/error.rs`). -/
inductive RsProtocError where
  | FilesystemError (msg : String)
  | LexError (msg : String)
  | ParseError (msg : String)
deriving DecidableEq, Repr

/-- Token kinds for the parser model (`lexer.rs` `TokenKind`), restricted to
the kinds `consume_syntax_declaration` inspects plus literal kinds needed to
exercise it.  The keyword token for `syntax` is `SyntaxKw`. -/
inductive PTok where
  | SyntaxKw
  | Equals
  | Semicolon
  | StringLiteral (s : String)
  | IntegerLiteral (n : Nat)
  | Identifier (s : String)
deriving DecidableEq, Repr

/-- Model of `Parser::consume` (`parser.rs` 65-73): peek one token, advance
exactly when it equals the expected kind.  The peekable iterator is a list;
the returned flag says whether the token was consumed. -/
def consume (expected : PTok) (ts : List PTok) : Bool × List PTok :=
  match ts with
  | [] => (false, ts)
  | t :: rest => if t = expected then (true, rest) else (false, ts)

/-- Model of `Parser::consume_multiple` (`parser.rs` 75-82): consume the
expected kinds in order, stopping at the first mismatch. -/
def consume_multiple (expected : List PTok) (ts : List PTok) : Bool × List PTok :=
  match expected with
  | [] => (true, ts)
  | e :: es =>
    match consume e ts with
    | (true, ts2) => consume_multiple es ts2
    | (false, ts2) => (false, ts2)

/-- Model of `Parser::consume_syntax_declaration` (`parser.rs` 84-111).
After `Syntax Equals`, the code peeks at the third token; only when that
token IS a `StringLiteral` different from "proto3" does it return an error —
any other token kind falls through the `if let` and is consumed by the
unconditional `next()`.  Then a `Semicolon` is required. -/
def consume_syntax_declaration (ts : List PTok) :
    Except RsProtocError (List PTok) :=
  match consume_multiple [.SyntaxKw, .Equals] ts with
  | (false, _) =>
    .error (.ParseError "Expected syntax declaration of the form: \"syntax = proto3\"")
  | (true, ts2) =>
    match ts2 with
    | [] =>
      .error (.ParseError "Expected syntax declaration of the form: \"syntax = proto3\"")
    | t :: rest =>
      let afterThird : Except RsProtocError (List PTok) :=
        match consume .Semicolon rest with
        | (true, ts3) => .ok ts3
        | (false, _) =>
          .error (.ParseError "Expected syntax declaration of the form: \"syntax = proto3\"")
      match t with
      | .StringLiteral s =>
        if s ≠ "proto3" then
          .error (.ParseError "Expected syntax declaration of the form: \"syntax = proto3\"")
        else afterThird
      | _ => afterThird

end RsProtoc

/-- C7 (code bug): `consume_syntax_declaration` accepts a token stream whose
third token is not a string literal at all — `Syntax Equals IntegerLiteral(42)
Semicolon` parses Ok — while the claim (and the spec) say only
`Syntax Equals StringLiteral("proto3") Semicolon` is accepted.  The stream
with `StringLiteral("proto2")` is rejected as the claim states. -/
theorem c7_parser_accepts_non_string_literal :
    RsProtoc.consume_syntax_declaration
        [.SyntaxKw, .Equals, .IntegerLiteral 42, .Semicolon] = .ok [] ∧
      RsProtoc.consume_syntax_declaration
        [.SyntaxKw, .Equals, .Identifier "proto3", .Semicolon] = .ok [] ∧
      RsProtoc.consume_syntax_declaration
        [.SyntaxKw, .Equals, .StringLiteral "proto3", .Semicolon] = .ok [] ∧
      RsProtoc.consume_syntax_declaration
        [.SyntaxKw, .Equals, .StringLiteral "proto2", .Semicolon] =
        .error (.ParseError "Expected syntax declaration of the form: \"syntax = proto3\"") :=
  ⟨rfl, rfl, rfl, rfl⟩

namespace RsProtoc

/-- Span over the source in consumed-character indices (`lexer.rs` `Span`,
half open `[start, stop)`; the Rust field `end` is a reserved word here).
The Rust code indexes the source both by consumed-character count and by
byte offset; the two agree on the ASCII sources used below. -/
structure LSpan where
  start : Nat
  stop : Nat

/-- Model of `Span::len`. -/
def LSpan.len (s : LSpan) : Nat := s.stop - s.start

/-- Model of `Span::is_empty`. -/
def LSpan.isEmpty (s : LSpan) : Bool := s.stop == s.start

/-- Model of `Span::extract_from_source` via character indices. -/
def LSpan.extract (s : LSpan) (src : List Char) : List Char :=
  if s.stop = s.start then [] else (src.drop s.start).take (s.stop - s.start)

/-- Model of `LineInfo` (`lexer.rs` 1045-1050).  `column_number` is
`current_line_column - span.len() + 1` computed on `usize` in the source; it
is modelled in `Int` as `(col - len) + 1`, so a value `≤ 0` marks a `usize`
underflow of the subtraction (a panic in debug builds). -/
structure LineInfo where
  lineStartOffset : Nat
  lineNumber : Nat
  columnNumber : Int

/-- Model of `TokenMetadata`. -/
structure TokenMetadata where
  span : LSpan
  lineInfo : LineInfo

/-- Model of `TokenKind` (`lexer.rs` 8-70); keyword kinds carry a `Kw`
suffix.  Text payloads are character lists.  A float literal carries the
integral value and the fractional and exponent substrings instead of the
combined `f64` (the IEEE arithmetic that combines them is not modelled; no
claim depends on the combined value). -/
inductive TokKind where
  | identifier (s : List Char)
  | integerLiteral (n : Nat)
  | floatLiteral (integral : Nat) (fractional : List Char) (exponent : List Char)
  | stringLiteral (s : List Char)
  | semicolon
  | colon
  | lparen
  | lbracket
  | comma
  | equals
  | rparen
  | rbracket
  | dot
  | minus
  | lbrace
  | langle
  | slash
  | plus
  | rbrace
  | rangle
  | importKw
  | syntaxKw
  | boolKw
  | toKw
  | oneOfKw
  | floatKw
  | doubleKw
  | mapKw
  | weakKw
  | int32Kw
  | extensionsKw
  | publicKw
  | int64Kw
  | packageKw
  | uint32Kw
  | maxKw
  | optionKw
  | uint64Kw
  | reservedKw
  | infKw
  | sint32Kw
  | enumKw
  | repeatedKw
  | sint64Kw
  | messageKw
  | optionalKw
  | fixed32Kw
  | extendKw
  | requiredKw
  | fixed64Kw
  | serviceKw
  | sfixed32Kw
  | rpcKw
  | stringKw
  | sfixed64Kw
  | streamKw
  | bytesKw
  | groupKw
  | returnsKw
  | error (msg : List Char)

/-- Model of `Token`. -/
structure Token where
  kind : TokKind
  metadata : TokenMetadata

/-- Model of `Lexer` (`lexer.rs` 84-92) together with its `Cursor`
(`lexer.rs` 1077-1119): `rest` is the unconsumed character iterator, `idx`
the consumed-character count (`number_of_chars_consumed`), `col`
`current_line_column`, `line` `current_line_number`, `lineStart`
`current_line_start_char_offset`. -/
structure Lexer where
  src : List Char
  rest : List Char
  idx : Nat
  col : Nat
  line : Nat
  lineStart : Nat
  seenError : Bool

/-- Model of `Lexer::new` (`lexer.rs` 96-105): all counters start at 0. -/
def Lexer.new (src : List Char) : Lexer :=
  { src := src, rest := src, idx := 0, col := 0, line := 0, lineStart := 0,
    seenError := false }

/-- Model of `Cursor::peek`. -/
def peekc (st : Lexer) : Option Char := st.rest.head?

/-- Model of `Cursor::peek_next` (the character after the next one). -/
def peekNext (st : Lexer) : Option Char :=
  match st.rest with
  | _ :: c2 :: _ => some c2
  | _ => none

/-- Model of `Lexer::next_char` (`lexer.rs` 771-787): consume one character;
a newline increments the line counter, resets the column to 1 and records the
line start offset; a tab advances the column by 4; any other character
advances it by 1. -/
def nextChar (st : Lexer) : Option Char × Lexer :=
  match st.rest with
  | [] => (none, st)
  | c :: rs =>
    let st2 := { st with rest := rs, idx := st.idx + 1 }
    if c = '\n' then
      (some c, { st2 with line := st.line + 1, col := 1, lineStart := st.idx + 1 })
    else if c = '\t' then
      (some c, { st2 with col := st.col + 4 })
    else
      (some c, { st2 with col := st.col + 1 })

/-- Model of `Lexer::get_token_metadata` (`lexer.rs` 140-149). -/
def getTokenMetadata (st : Lexer) (span : LSpan) : TokenMetadata :=
  { span := span,
    lineInfo :=
      { lineStartOffset := st.lineStart, lineNumber := st.line,
        columnNumber := (st.col : Int) - span.len + 1 } }

/-- Model of `Lexer::get_error_token` (`lexer.rs` 717-723): set `seen_error`
and build the message `"Lexer error {msg}\n{line}"`. -/
def getErrorToken (st : Lexer) (msg : List Char) : TokKind × Lexer :=
  (.error ("Lexer error ".toList ++ msg ++ '\n' :: (toString st.line).toList),
    { st with seenError := true })

/-- Model of `is_whitespace` (`lexer.rs` 967-975). -/
def isWhitespaceModel (c : Char) : Bool :=
  c = ' ' || c = '\n' || c = '\r' || c = '\t' || c = '\x0c' || c = '\x0b'

/-- Model of `char::is_alphanumeric` restricted to ASCII (the identifier
continuation test; the sources exercised below are ASCII). -/
def isAlphanumericModel (c : Char) : Bool := c.isAlphanum

/-- ASCII hex digit test (`char::is_ascii_hexdigit`). -/
def isAsciiHexdigit (c : Char) : Bool :=
  c.isDigit || ('a' ≤ c && c ≤ 'f') || ('A' ≤ c && c ≤ 'F')

/-- Hex digit value (`char::to_digit(16)` on a valid digit). -/
def hexDigitVal (c : Char) : Nat :=
  if c.isDigit then c.toNat - 48
  else if 'a' ≤ c && c ≤ 'f' then c.toNat - 87
  else if 'A' ≤ c && c ≤ 'F' then c.toNat - 55
  else 0

/-- Octal digit test (`lexer.rs` 848-851). -/
def isOctalDigit (c : Char) : Bool := '0' ≤ c && c ≤ '7'

/-- Loop of `Lexer::identifier_or_keyword` (`lexer.rs` 154-164): consume
alphanumeric and underscore characters.  The fuel is at least the remaining
input length, so exhaustion is unreachable. -/
def identLoop : Nat → Lexer → Lexer
  | 0, st => st
  | fuel + 1, st =>
    match peekc st with
    | some ch =>
      if isAlphanumericModel ch || ch = '_' then identLoop fuel (nextChar st).2
      else st
    | none => st

/-- Model of the keyword table (`lexer.rs` 977-1026, 39 entries). -/
def keywordTable : List (List Char × TokKind) := [
  ("import".toList, .importKw),
  ("syntax".toList, .syntaxKw),
  ("bool".toList, .boolKw),
  ("to".toList, .toKw),
  ("oneOf".toList, .oneOfKw),
  ("float".toList, .floatKw),
  ("double".toList, .doubleKw),
  ("map".toList, .mapKw),
  ("weak".toList, .weakKw),
  ("int32".toList, .int32Kw),
  ("extensions".toList, .extensionsKw),
  ("public".toList, .publicKw),
  ("int64".toList, .int64Kw),
  ("package".toList, .packageKw),
  ("uint32".toList, .uint32Kw),
  ("max".toList, .maxKw),
  ("option".toList, .optionKw),
  ("uint64".toList, .uint64Kw),
  ("reserved".toList, .reservedKw),
  ("inf".toList, .infKw),
  ("sint32".toList, .sint32Kw),
  ("enum".toList, .enumKw),
  ("repeated".toList, .repeatedKw),
  ("sint64".toList, .sint64Kw),
  ("message".toList, .messageKw),
  ("optional".toList, .optionalKw),
  ("fixed32".toList, .fixed32Kw),
  ("extend".toList, .extendKw),
  ("required".toList, .requiredKw),
  ("fixed64".toList, .fixed64Kw),
  ("service".toList, .serviceKw),
  ("sfixed32".toList, .sfixed32Kw),
  ("rpc".toList, .rpcKw),
  ("string".toList, .stringKw),
  ("sfixed64".toList, .sfixed64Kw),
  ("stream".toList, .streamKw),
  ("bytes".toList, .bytesKw),
  ("group".toList, .groupKw),
  ("returns".toList, .returnsKw)]

/-- Model of `get_keyword_token_kind` (`lexer.rs` 977-1026). -/
def getKeywordTokenKind (text : List Char) : Option TokKind :=
  match keywordTable.find? (fun p => p.1 == text) with
  | some p => some p.2
  | none => none

/-- Model of `Lexer::identifier_or_keyword` (`lexer.rs` 151-177); the header
character has already been consumed, so the lexeme starts at `idx - 1`. -/
def identifierOrKeyword (st : Lexer) : Token × Lexer :=
  let start := st.idx - 1
  let st2 := identLoop (st.rest.length + 1) st
  let stop := st2.idx
  let text := (st2.src.drop start).take (stop - start)
  match getKeywordTokenKind text with
  | some kw => ({ kind := kw, metadata := getTokenMetadata st2 ⟨start, stop⟩ }, st2)
  | none =>
    ({ kind := .identifier text, metadata := getTokenMetadata st2 ⟨start, stop⟩ }, st2)

end RsProtoc

namespace RsProtoc

/-- Model of `Lexer::consume_decimal_digits` (`lexer.rs` 179-191). -/
def decimalDigitsLoop : Nat → Lexer → Lexer
  | 0, st => st
  | fuel + 1, st =>
    match peekc st with
    | some ch => if ch.isDigit then decimalDigitsLoop fuel (nextChar st).2 else st
    | none => st

/-- Model of `Lexer::consume_hex_digits` (`lexer.rs` 192-204). -/
def hexDigitsLoop : Nat → Lexer → Lexer
  | 0, st => st
  | fuel + 1, st =>
    match peekc st with
    | some ch => if isAsciiHexdigit ch then hexDigitsLoop fuel (nextChar st).2 else st
    | none => st

/-- Model of `Lexer::consume_octal_digits` (`lexer.rs` 206-221). -/
def octalDigitsLoop : Nat → Lexer → Lexer
  | 0, st => st
  | fuel + 1, st =>
    match peekc st with
    | some ch => if isOctalDigit ch then octalDigitsLoop fuel (nextChar st).2 else st
    | none => st

/-- Model of `Radix` (`lexer.rs` 1028-1043). -/
inductive Radix where
  | Decimal
  | Hexadecimal
  | Octal

/-- Model of `impl From<Radix> for u32`. -/
def radixNat : Radix → Nat
  | .Decimal => 10
  | .Hexadecimal => 16
  | .Octal => 8

/-- Model of `Lexer::determine_radix` (`lexer.rs` 223-236): a `0` header
selects octal, upgraded to hexadecimal when an `x`/`X` follows (which is
consumed); otherwise decimal. -/
def determineRadix (header : Char) (st : Lexer) : Radix × Lexer :=
  if header = '0' then
    match peekc st with
    | some ch =>
      if ch = 'X' || ch = 'x' then (.Hexadecimal, (nextChar st).2) else (.Octal, st)
    | none => (.Octal, st)
  else (.Decimal, st)

/-- Model of `Lexer::extract_integral_part` (`lexer.rs` 238-268).  For a `.`
header the integral span is empty; for hexadecimal the span starts after the
`x` and at least one hex digit is required. -/
def extractIntegralPart (header : Char) (radix : Radix) (st : Lexer) :
    Except (List Char) LSpan × Lexer :=
  if header = '.' then (.ok ⟨st.idx, st.idx⟩, st)
  else
    match radix with
    | .Decimal =>
      let start := st.idx - 1
      let st2 := decimalDigitsLoop (st.rest.length + 1) st
      (.ok ⟨start, st2.idx⟩, st2)
    | .Hexadecimal =>
      let start := st.idx - 1 + 1
      let cached := st.idx
      let st2 := hexDigitsLoop (st.rest.length + 1) st
      if cached = st2.idx then
        (.error ("Expected hexadecimal digits after the \"0x\"/\"0X\"".toList), st2)
      else (.ok ⟨start, st2.idx⟩, st2)
    | .Octal =>
      let start := st.idx - 1
      let st2 := octalDigitsLoop (st.rest.length + 1) st
      (.ok ⟨start, st2.idx⟩, st2)

/-- Model of `Lexer::extract_fractional_part` (`lexer.rs` 270-300).  With an
empty integral span (header `.`) the fractional span includes the already
consumed dot; otherwise a dot is consumed if present and the span covers it
and the following digits (possibly empty when there is no dot). -/
def extractFractionalPart (integralPart : LSpan) (st : Lexer) : LSpan × Lexer :=
  if integralPart.isEmpty then
    let start := st.idx - 1
    let st2 := decimalDigitsLoop (st.rest.length + 1) st
    (⟨start, st2.idx⟩, st2)
  else
    match peekc st with
    | some ch =>
      if ch = '.' then
        let start := st.idx
        let st2 := decimalDigitsLoop (st.rest.length + 1) (nextChar st).2
        (⟨start, st2.idx⟩, st2)
      else (⟨st.idx, st.idx⟩, st)
    | none => (⟨st.idx, st.idx⟩, st)

/-- Model of `Lexer::extract_exponent` (`lexer.rs` 302-337): optional
`e`/`E`, optional sign, then at least one decimal digit, else an error. -/
def extractExponent (st : Lexer) : Except (List Char) LSpan × Lexer :=
  match peekc st with
  | some ch =>
    if ch = 'e' || ch = 'E' then
      let start := st.idx + 1
      let st2 := (nextChar st).2
      let st3 :=
        match peekc st2 with
        | some c2 => if c2 = '+' || c2 = '-' then (nextChar st2).2 else st2
        | none => st2
      let cached := st3.idx
      let st4 := decimalDigitsLoop (st3.rest.length + 1) st3
      if cached = st4.idx then
        (.error ("Expected decimal digits in exponent part of numeric literal".toList), st4)
      else (.ok ⟨start, st4.idx⟩, st4)
    else (.ok ⟨st.idx, st.idx⟩, st)
  | none => (.ok ⟨st.idx, st.idx⟩, st)

/-- Value of a digit string in the given radix (`u64::from_str_radix` on the
digit strings the scanner produces; every character is a valid digit by
construction). -/
def parseRadix (radix : Nat) (cs : List Char) : Nat :=
  cs.foldl (fun acc c => acc * radix + hexDigitVal c) 0

/-- Signed decimal parse for the exponent (`i32::from_str_radix(s, 10)`):
optional sign, then decimal digits. -/
def parseExponent (cs : List Char) : Int :=
  match cs with
  | '+' :: ds => (parseRadix 10 ds : Int)
  | '-' :: ds => -(parseRadix 10 ds : Int)
  | ds => (parseRadix 10 ds : Int)

/-- Model of `Lexer::numeric_literal` (`lexer.rs` 339-455).  A pure integer
(no fractional part, no exponent) yields `integerLiteral` with the digits
parsed in the determined radix (`u64` overflow yields an error token);
otherwise a `floatLiteral` carrying the components.  Error tokens span from
the literal start to the current cursor index. -/
def numericLiteral (header : Char) (st : Lexer) : Token × Lexer :=
  let start := st.idx - 1
  let (radix, st1) := determineRadix header st
  match extractIntegralPart header radix st1 with
  | (.error msg, st2) =>
    let (kind, st3) := getErrorToken st2 msg
    ({ kind := kind, metadata := getTokenMetadata st3 ⟨start, st3.idx⟩ }, st3)
  | (.ok integralPart, st2) =>
    let (fractionalPart, st3) := extractFractionalPart integralPart st2
    match extractExponent st3 with
    | (.error msg, st4) =>
      let (kind, st5) := getErrorToken st4 msg
      ({ kind := kind, metadata := getTokenMetadata st5 ⟨start, st5.idx⟩ }, st5)
    | (.ok exponentPart, st4) =>
      let integralDigits := integralPart.extract st4.src
      let integralValue := parseRadix (radixNat radix) integralDigits
      if ¬ integralPart.isEmpty ∧ 2 ^ 64 - 1 < integralValue then
        let (kind, st5) := getErrorToken st4 ("number too large to fit in target type".toList)
        ({ kind := kind, metadata := getTokenMetadata st5 ⟨start, st5.idx⟩ }, st5)
      else if fractionalPart.isEmpty ∧ exponentPart.isEmpty ∧ ¬ integralPart.isEmpty then
        ({ kind := .integerLiteral integralValue,
           metadata := getTokenMetadata st4 ⟨start, st4.idx⟩ }, st4)
      else
        let fractionalText := fractionalPart.extract st4.src
        let exponentText := exponentPart.extract st4.src
        if exponentPart.isEmpty then
          ({ kind := .floatLiteral integralValue fractionalText [],
             metadata := getTokenMetadata st4 ⟨start, st4.idx⟩ }, st4)
        else if parseExponent exponentText < -(2 ^ 31) ∨
            2 ^ 31 - 1 < parseExponent exponentText then
          let (kind, st5) := getErrorToken st4 ("number too large to fit in target type".toList)
          ({ kind := kind, metadata := getTokenMetadata st5 ⟨start, st5.idx⟩ }, st5)
        else
          ({ kind := .floatLiteral integralValue fractionalText exponentText,
             metadata := getTokenMetadata st4 ⟨start, st4.idx⟩ }, st4)

end RsProtoc

namespace RsProtoc

/-- Whether a code point is accepted by `char::from_u32`. -/
def isValidCharNat (n : Nat) : Bool :=
  n < 0xD800 || (0xE000 ≤ n && n < 0x110000)

/-- Model of `Lexer::consume_hex_escape_sequence` (`lexer.rs` 822-841): one
required hex digit, one optional hex digit, pushed as a character. -/
def consumeHexEscapeSequence (st : Lexer) (acc : List Char) :
    Bool × List Char × Lexer :=
  match nextChar st with
  | (none, st1) => (false, acc, st1)
  | (some c1, st1) =>
    if isAsciiHexdigit c1 then
      let d1 := hexDigitVal c1
      match peekc st1 with
      | some c2 =>
        if isAsciiHexdigit c2 then
          let st2 := (nextChar st1).2
          let v := d1 <<< 4 ||| hexDigitVal c2
          (true, acc ++ [Char.ofNat v], st2)
        else (true, acc ++ [Char.ofNat d1], st1)
      | none => (true, acc ++ [Char.ofNat d1], st1)
    else (false, acc, st1)

/-- Model of `Lexer::consume_octal_escape_sequence` (`lexer.rs` 843-864):
the first octal digit is given; up to two more are consumed. -/
def consumeOctalEscapeSequence (first : Char) (st : Lexer) (acc : List Char) :
    List Char × Lexer :=
  let step : Nat × Lexer → Nat × Lexer := fun p =>
    match peekc p.2 with
    | some d =>
      if isOctalDigit d then (p.1 <<< 3 ||| hexDigitVal d, (nextChar p.2).2)
      else p
    | none => p
  let r := step (step (hexDigitVal first, st))
  (acc ++ [Char.ofNat r.1], r.2)

/-- Digit loop of `Lexer::consume_unicode_escape_sequence` (`lexer.rs`
872-894): read exactly `k` hex digits into an accumulator; a missing or
non-hex character fails (with the characters so far consumed). -/
def unicodeHexLoop : Nat → Lexer → Nat → Bool × Nat × Lexer
  | 0, st, acc => (true, acc, st)
  | k + 1, st, acc =>
    match nextChar st with
    | (none, st1) => (false, acc, st1)
    | (some c, st1) =>
      if isAsciiHexdigit c then unicodeHexLoop k st1 (acc <<< 4 ||| hexDigitVal c)
      else (false, acc, st1)

/-- Model of `Lexer::consume_unicode_escape_sequence` (`lexer.rs` 866-901):
4 digits after `u`, 8 after `U`; the decoded value must be a valid scalar. -/
def consumeUnicodeEscapeSequence (header : Char) (st : Lexer) (acc : List Char) :
    Bool × List Char × Lexer :=
  let n := if header = 'u' then 4 else 8
  match unicodeHexLoop n st 0 with
  | (false, _, st1) => (false, acc, st1)
  | (true, v, st1) =>
    if isValidCharNat v then (true, acc ++ [Char.ofNat v], st1)
    else (false, acc, st1)

/-- Model of `Lexer::consume_escape_sequence` (`lexer.rs` 903-956).  The
match arms cover `a b f n r t v " ? x X`, the octal digits and `u U`; note
there is NO arm for a backslash — `\\` falls through to `_ => false`. -/
def consumeEscapeSequence (st : Lexer) (acc : List Char) :
    Bool × List Char × Lexer :=
  match nextChar st with
  | (none, st1) => (false, acc, st1)
  | (some ch, st1) =>
    if ch = 'a' then (true, acc ++ ['\x07'], st1)
    else if ch = 'b' then (true, acc ++ ['\x08'], st1)
    else if ch = 'f' then (true, acc ++ ['\x0c'], st1)
    else if ch = 'n' then (true, acc ++ ['\n'], st1)
    else if ch = 'r' then (true, acc ++ ['\x0d'], st1)
    else if ch = 't' then (true, acc ++ ['\t'], st1)
    else if ch = 'v' then (true, acc ++ ['\x0b'], st1)
    else if ch = '\"' then (true, acc ++ ['\"'], st1)
    else if ch = '\'' then (true, acc ++ ['\''], st1)
    else if ch = '?' then (true, acc ++ ['?'], st1)
    else if ch = 'x' || ch = 'X' then consumeHexEscapeSequence st1 acc
    else if isOctalDigit ch then
      let r := consumeOctalEscapeSequence ch st1 acc
      (true, r.1, r.2)
    else if ch = 'u' || ch = 'U' then consumeUnicodeEscapeSequence ch st1 acc
    else (false, acc, st1)

/-- Loop of `Lexer::string_literal` (`lexer.rs` 457-545).  `startIdx` is the
index just after the opening quote; `escaped` is the owned buffer, allocated
lazily at the first escape.  A newline, NUL or end of input yields an
"Unterminated string literal" error token; an invalid escape yields an
"Invalid escape sequence in string literal" error token; the matching quote
yields the string literal token (owned when `escaped` is nonempty, else the
source slice).  The fuel is at least the remaining input length plus one, so
exhaustion is unreachable (the fallback mirrors the end-of-input arm). -/
def stringLitLoop : Nat → Char → Nat → List Char → Lexer → Token × Lexer
  | 0, _, startIdx, _, st =>
    let (kind, st1) := getErrorToken st ("Unterminated string literal".toList)
    ({ kind := kind, metadata := getTokenMetadata st1 ⟨startIdx, st1.idx⟩ }, st1)
  | fuel + 1, header, startIdx, escaped, st =>
    match nextChar st with
    | (none, st1) =>
      let (kind, st2) := getErrorToken st1 ("Unterminated string literal".toList)
      ({ kind := kind, metadata := getTokenMetadata st2 ⟨startIdx, st2.idx⟩ }, st2)
    | (some c, st1) =>
      if c = '\n' ∨ c = '\x00' then
        let (kind, st2) := getErrorToken st1 ("Unterminated string literal".toList)
        ({ kind := kind, metadata := getTokenMetadata st2 ⟨startIdx, st2.idx⟩ }, st2)
      else if c = '\\' then
        let escaped2 :=
          if escaped.isEmpty then (st1.src.drop startIdx).take (st1.idx - 1 - startIdx)
          else escaped
        match consumeEscapeSequence st1 escaped2 with
        | (false, _, st2) =>
          let (kind, st3) :=
            getErrorToken st2 ("Invalid escape sequence in string literal".toList)
          ({ kind := kind, metadata := getTokenMetadata st3 ⟨startIdx, st3.idx⟩ }, st3)
        | (true, escaped3, st2) => stringLitLoop fuel header startIdx escaped3 st2
      else if c = header then
        if escaped.length > 0 then
          ({ kind := .stringLiteral escaped,
             metadata := getTokenMetadata st1 ⟨startIdx, st1.idx⟩ }, st1)
        else
          ({ kind := .stringLiteral
               ((st1.src.drop startIdx).take (st1.idx - 1 - startIdx)),
             metadata := getTokenMetadata st1 ⟨startIdx, st1.idx⟩ }, st1)
      else
        stringLitLoop fuel header startIdx
          (if escaped.length > 0 then escaped ++ [c] else escaped) st1

/-- Model of `Lexer::string_literal`: the opening quote has been consumed. -/
def stringLiteral (header : Char) (st : Lexer) : Token × Lexer :=
  stringLitLoop (st.rest.length + 1) header st.idx [] st

/-- Predicate of the `is_start_of_block_comment` closure (`lexer.rs`
739-750). -/
def isStartOfBlockComment (st : Lexer) : Bool :=
  match peekc st, peekNext st with
  | some c0, some c1 => c0 = '/' && c1 = '*'
  | _, _ => false

/-- Predicate of the `is_start_of_single_line_comment` closure (`lexer.rs`
727-738). -/
def isStartOfLineComment (st : Lexer) : Bool :=
  match peekc st, peekNext st with
  | some c0, some c1 => c0 = '/' && c1 = '/'
  | _, _ => false

/-- Loop of `Lexer::consume_block_comment` (`lexer.rs` 811-819): after a `*`
the NEXT character is consumed unconditionally and the comment ends only when
that character is `/`; end of input ends the scan silently. -/
def blockCommentLoop : Nat → Lexer → Lexer
  | 0, st => st
  | fuel + 1, st =>
    match nextChar st with
    | (none, st1) => st1
    | (some c, st1) =>
      if c = '*' then
        match nextChar st1 with
        | (none, st2) => st2
        | (some c2, st2) => if c2 = '/' then st2 else blockCommentLoop fuel st2
      else blockCommentLoop fuel st1

/-- Model of `Lexer::consume_block_comment` (`lexer.rs` 804-820): consume
the `/` and `*`, then the loop. -/
def consumeBlockComment (st : Lexer) : Lexer :=
  let st1 := (nextChar (nextChar st).2).2
  blockCommentLoop (st1.rest.length + 1) st1

/-- Loop of `Lexer::consume_single_line_comment` (`lexer.rs` 797-801). -/
def lineCommentLoop : Nat → Lexer → Lexer
  | 0, st => st
  | fuel + 1, st =>
    match nextChar st with
    | (none, st1) => st1
    | (some c, st1) =>
      if c = '\n' ∨ c = '\x00' then st1 else lineCommentLoop fuel st1

/-- Model of `Lexer::consume_single_line_comment` (`lexer.rs` 790-802). -/
def consumeSingleLineComment (st : Lexer) : Lexer :=
  let st1 := (nextChar (nextChar st).2).2
  lineCommentLoop (st1.rest.length + 1) st1

/-- Loop of `Lexer::consume_whitespace_and_comments` (`lexer.rs` 726-769). -/
def wsLoop : Nat → Lexer → Lexer
  | 0, st => st
  | fuel + 1, st =>
    if isStartOfBlockComment st then wsLoop fuel (consumeBlockComment st)
    else if isStartOfLineComment st then wsLoop fuel (consumeSingleLineComment st)
    else
      match peekc st with
      | some ch => if isWhitespaceModel ch then wsLoop fuel (nextChar st).2 else st
      | none => st

/-- Model of `Lexer::consume_whitespace_and_comments`. -/
def consumeWhitespaceAndComments (st : Lexer) : Lexer :=
  wsLoop (st.rest.length + 1) st

/-- Model of `Lexer::next_token` (`lexer.rs` 547-715): skip whitespace and
comments, consume one character and dispatch on it; `None` at end of input. -/
def nextToken (st0 : Lexer) : Option (Token × Lexer) :=
  let st := consumeWhitespaceAndComments st0
  match nextChar st with
  | (none, _) => none
  | (some c, st1) =>
    let punct : TokKind → Option (Token × Lexer) := fun k =>
      some ({ kind := k, metadata := getTokenMetadata st1 ⟨st1.idx - 1, st1.idx⟩ }, st1)
    if c = ';' then punct .semicolon
    else if c = ':' then punct .colon
    else if c = '(' then punct .lparen
    else if c = '[' then punct .lbracket
    else if c = ',' then punct .comma
    else if c = '=' then punct .equals
    else if c = ')' then punct .rparen
    else if c = ']' then punct .rbracket
    else if c = '.' then
      match peekc st1 with
      | some nc => if nc.isDigit then some (numericLiteral c st1) else punct .dot
      | none => punct .dot
    else if c = '-' then punct .minus
    else if c = '{' then punct .lbrace
    else if c = '<' then punct .langle
    else if c = '/' then punct .slash
    else if c = '+' then punct .plus
    else if c = '}' then punct .rbrace
    else if c = '>' then punct .rangle
    else if c = '\'' ∨ c = '\"' then some (stringLiteral c st1)
    else if '0' ≤ c ∧ c ≤ '9' then some (numericLiteral c st1)
    else if ('a' ≤ c ∧ c ≤ 'z') ∨ ('A' ≤ c ∧ c ≤ 'Z') ∨ c = '_' then
      some (identifierOrKeyword st1)
    else
      let (kind, st2) := getErrorToken st1 ("Unknown character".toList)
      some ({ kind := kind, metadata := getTokenMetadata st2 ⟨st2.idx - 1, st2.idx⟩ }, st2)

/-- Iterate `next_token` to the end of the stream (the `Iterator` instance,
`lexer.rs` 959-965); the fuel bounds the number of tokens, each of which
consumes at least one character. -/
def lexAll : Nat → Lexer → List Token
  | 0, _ => []
  | fuel + 1, st =>
    match nextToken st with
    | none => []
    | some (tok, st1) => tok :: lexAll fuel st1

/-- Tokenize a source from a fresh lexer. -/
def lex (src : List Char) : List Token :=
  lexAll (src.length + 1) (Lexer.new src)

end RsProtoc

/-- C4 (code bug): `consume_escape_sequence` has no match arm for a
backslash, so the escape `\\` (backslash-backslash) falls through to
`_ => false` and the lexer emits an Error token "Invalid escape sequence in
string literal" for the well-formed literal `"a\\b"`, instead of the
StringLiteral token with payload `a\b` that the claim (and the spec escape
table) require. -/
theorem c4_backslash_escape_yields_error_token :
    (RsProtoc.nextToken (RsProtoc.Lexer.new ("\"a\\\\b\"".toList))).map
        (fun p => p.1.kind) =
      some (.error ("Lexer error Invalid escape sequence in string literal\n0".toList)) :=
  rfl

/-- C5 (code bug): inside a block comment, after reading a `*` the code
unconditionally consumes the NEXT character and only ends the comment when
that character is `/`; a `*` consumed that way can no longer start the
terminator.  On `"/***/;"` the first `*/` (characters 3 and 4) is missed,
the whole input including the `;` is swallowed and the lexer yields no token
— the claim says the comment ends at the first `*/` and the `;` is the next
character considered.  On `"/**/;"` (where no `*` is skipped) the `;` is
tokenized as the claim describes. -/
theorem c5_block_comment_misses_first_terminator :
    RsProtoc.nextToken (RsProtoc.Lexer.new ("/***/;".toList)) = none ∧
      (RsProtoc.nextToken (RsProtoc.Lexer.new ("/**/;".toList))).map
          (fun p => p.1.kind) =
        some .semicolon :=
  ⟨rfl, rfl⟩

/-- C6 (code bug): `Lexer::new` starts `current_line_number` at 0 and tokens
record it unchanged, so the token starting at the first character of the
first line carries line 0, not the 1-based line 1 of the claim (its column
is 1).  Moreover, after a newline the column counter is reset to 1 and then
incremented once more for the token character, so the token starting a later
line records column 2 where the 1-based column of its first character is 1. -/
theorem c6_line_numbers_zero_based :
    (RsProtoc.nextToken (RsProtoc.Lexer.new (";".toList))).map
        (fun p => (p.1.metadata.lineInfo.lineNumber, p.1.metadata.lineInfo.columnNumber)) =
      some (0, 1) ∧
      (RsProtoc.nextToken (RsProtoc.Lexer.new ("\n;".toList))).map
          (fun p => (p.1.metadata.lineInfo.lineNumber, p.1.metadata.lineInfo.columnNumber)) =
        some (1, 2) :=
  ⟨rfl, rfl⟩

/-- C10 (code bug): on the source `"a` followed by a newline, the
unterminated string literal produces an Error token whose span `[1, 3)` has
length 2 while `current_line_column` was reset to 1 by the newline, so
`current_line_column - span.len()` is `1 - 2`: a `usize` underflow (panic in
debug builds).  In the model the column is computed in `Int` and the
resulting value 0 (that is, `≤ 0`) witnesses the underflow the claim says
cannot happen. -/
theorem c10_column_computation_underflows :
    (RsProtoc.nextToken (RsProtoc.Lexer.new ("\"a\n".toList))).map
        (fun p => (p.1.metadata.span.len, p.1.metadata.lineInfo.columnNumber)) =
      some (2, 0) :=
  rfl
